import Mathlib

/-!
# Verification of the `fly` migration runner

A shallow embedding of the Go program `fly.go` (a minimal database
schema-migration runner) together with proofs about its behaviour.

Modelling choices:
* The filesystem is an association list from full path (`dir ++ "/" ++ name`)
  to file content.  `os.ReadDir` returns the entry names of a directory
  sorted ascending by name; `os.ReadFile` is association-list lookup;
  `os.Create` truncates an existing file or creates an empty one.
* The database is a record `Db S`: the `migration` table (a list of rows)
  plus an abstract remaining-schema state of type `S`.  SQL execution of a
  script's text on the schema is an oracle `exec : String → S → Option S`
  (`none` = SQL error).  The `migration` table's SQL is embedded directly:
  `INSERT` fails on a primary-key conflict, `DELETE` never fails,
  `ORDER BY applied, id` sorts by the `(applied, id)` key.
  Postgres evaluates `current_timestamp` once per transaction, so a single
  `now : Nat` is used for all rows inserted by one run.
* Go's `sql.Tx`: all writes inside a run go to a transaction copy of the
  database; a successful run commits the copy, a failed run returns the
  original database (the deferred `tx.Rollback()`).
* Each operation returns `(resulting committed database, printed ids, ok)`.
  Ids printed before a mid-batch failure stay printed.
-/

namespace Fly

/-- Lexicographic comparison of character lists (byte order of Go string
comparison; identical to codepoint order on these ASCII inputs). -/
def leList : List Char → List Char → Bool
  | [], _ => true
  | _ :: _, [] => false
  | a :: as, b :: bs => if a = b then leList as bs else decide (a < b)

/-- Ascending string order used by Go's `sort.Strings` and by the name
order of `os.ReadDir`. -/
def strLe (a b : String) : Bool := leList a.data b.data

/-- Insertion into a sorted list (the sorting these proofs use; Go's
`sort.Strings` and SQL `ORDER BY` promise exactly a sorted permutation). -/
def insertLe {α : Type} (le : α → α → Bool) (a : α) : List α → List α
  | [] => [a]
  | b :: l => if le a b then a :: b :: l else b :: insertLe le a l

/-- Sort a list ascending with respect to `le`. -/
def sortLe {α : Type} (le : α → α → Bool) : List α → List α
  | [] => []
  | a :: l => insertLe le a (sortLe le l)

/-- Go `strings.CutSuffix s suffix`: `some` of the rest when `s` ends in
`suffix`, otherwise `none`. -/
def cutSuffix (s suffix : String) : Option String :=
  if suffix.data.isSuffixOf s.data then
    some ⟨s.data.take (s.data.length - suffix.data.length)⟩
  else none

/-- `cut` on character lists: split at the first occurrence of `sep`. -/
def cutAux (sep : List Char) : List Char → Option (List Char × List Char)
  | [] => if sep.isPrefixOf ([] : List Char) then some ([], []) else none
  | x :: xs =>
    if sep.isPrefixOf (x :: xs) then some ([], (x :: xs).drop sep.length)
    else (cutAux sep xs).map (fun p => (x :: p.1, p.2))

/-- Go `strings.Cut s sep`: split at the first occurrence of `sep`. -/
def cut (s sep : String) : Option (String × String) :=
  (cutAux sep.data s.data).map (fun p => (⟨p.1⟩, ⟨p.2⟩))

/-- Digit parsing: `some` of the value when the characters are one or more
decimal digits, `none` otherwise. -/
def digitsToNat (l : List Char) : Option Nat :=
  if l = [] then none
  else if l.all (fun c => c.isDigit) then
    some (l.foldl (fun n c => n * 10 + (c.toNat - 48)) 0)
  else none

/-- Go `strconv.Atoi`: an optional sign followed by digits, with the
64-bit range check; anything else is an error. -/
def atoi (s : String) : Option Int :=
  let core : Option Int :=
    match s.data with
    | '-' :: rest => (digitsToNat rest).map (fun n => -(n : Int))
    | '+' :: rest => (digitsToNat rest).map (fun n => (n : Int))
    | l => (digitsToNat l).map (fun n => (n : Int))
  core.bind (fun n =>
    if -(9223372036854775808 : Int) ≤ n ∧ n < 9223372036854775808 then some n
    else none)

/-- Two's-complement reading of `n` as a 64-bit signed integer: Go's `int`
arithmetic (`n + 1` in `doNew`) wraps in this representation. -/
def wrap64 (n : Int) : Int :=
  (n + 9223372036854775808) % 18446744073709551616 - 9223372036854775808

/-- Decimal digits of a natural number (fuel-based, enough fuel for any
input). -/
def natDigits (fuel n : Nat) (acc : List Char) : List Char :=
  match fuel with
  | 0 => acc
  | fuel + 1 =>
    let d := Char.ofNat (48 + n % 10)
    if n < 10 then d :: acc else natDigits fuel (n / 10) (d :: acc)

/-- Decimal representation of a natural number. -/
def natRepr (n : Nat) : String := ⟨natDigits (n + 1) n []⟩

/-- Go `fmt.Sprintf "%04d" n`: decimal representation left-padded with
zeros to a total width of four (the sign counts towards the width). -/
def pad4 (n : Int) : String :=
  if n < 0 then
    let d := natRepr (-n).toNat
    "-" ++ String.mk (List.replicate (3 - d.length) '0') ++ d
  else
    let d := natRepr n.toNat
    String.mk (List.replicate (4 - d.length) '0') ++ d

/-! ## Filesystem -/

/-- The filesystem: full path ↦ content. -/
abbrev FS := List (String × String)

/-- Go `os.ReadFile`. -/
def readFile (fs : FS) (path : String) : Option String :=
  (fs.find? (fun p => p.1 == path)).map (fun p => p.2)

/-- Go `os.Create`: truncate the file if it exists, create it empty
otherwise. -/
def createFile (fs : FS) (path : String) : FS :=
  fs.filter (fun p => p.1 != path) ++ [(path, "")]

/-- The name of a direct entry of `dir`, when `path` is one. -/
def underDir (dir path : String) : Option String :=
  if (dir ++ "/").data.isPrefixOf path.data then
    let name : String := ⟨path.data.drop (dir ++ "/").data.length⟩
    if name.data.contains '/' then none else some name
  else none

/-- Go `os.ReadDir dir`: direct entry names of `dir`, sorted ascending. -/
def readDir (fs : FS) (dir : String) : List String :=
  sortLe strLe ((fs.map Prod.fst).filterMap (underDir dir))

/-! ## Ledger (the `migration` table) -/

/-- One row of the `migration` table (Go struct `migration`). -/
structure Migration where
  id : String
  applied : Nat
deriving DecidableEq, Repr

/-- `ORDER BY applied, id` — ascending applied time, ties broken by id. -/
def migLe (a b : Migration) : Bool :=
  decide (a.applied < b.applied) ||
    (decide (a.applied = b.applied) && strLe a.id b.id)

/-- `listAppliedMigrations`: `SELECT id, applied FROM migration ORDER BY
applied, id`. -/
def listAppliedMigrations (ledger : List Migration) : List Migration :=
  sortLe migLe ledger

/-- `isMigrationApplied`: membership of `id` in the `migration` table. -/
def isMigrationApplied (ledger : List Migration) (id : String) : Bool :=
  ledger.any (fun r => r.id == id)

/-- `registerMigration`: `INSERT INTO migration VALUES ($1)`.  The insert
fails on a primary-key conflict; the `applied` column defaults to the
transaction's `current_timestamp`. -/
def registerMigration (ledger : List Migration) (id : String) (now : Nat) :
    Option (List Migration) :=
  if ledger.any (fun r => r.id == id) then none
  else some (ledger ++ [⟨id, now⟩])

/-- `unregisterMigration`: `DELETE FROM migration WHERE id = $1`. -/
def unregisterMigration (ledger : List Migration) (id : String) :
    List Migration :=
  ledger.filter (fun r => r.id != id)

/-- The database: the `migration` table plus the abstract state of the
rest of the schema. -/
structure Db (S : Type) where
  ledger : List Migration
  schema : S
deriving DecidableEq, Repr

/-! ## Directory scan and script execution -/

/-- `listDirMigrations`: read the directory `"migrations"` (a fixed name
in the source), keep names ending in `".up.sql"`, strip that suffix, sort
ascending. -/
def listDirMigrations (fs : FS) : List String :=
  sortLe strLe ((readDir fs "migrations").filterMap (fun n => cutSuffix n ".up.sql"))

/-- `runScript`: read the file and execute its text on the schema inside
the transaction. -/
def runScript {S : Type} (exec : String → S → Option S) (fs : FS)
    (filename : String) (s : S) : Option S :=
  match readFile fs filename with
  | none => none
  | some script => exec script s

/-! ## The `up` command -/

/-- The loop of `doUp` over the directory ids.  `committed` is the ledger
seen by `isMigrationApplied` (queried on `db`, outside the transaction);
`tx` is the transaction state.  Returns the printed ids and the final
transaction state (`none` = a script or registration failed). -/
def upLoop {S : Type} (exec : String → S → Option S) (fs : FS)
    (srcdir : String) (committed : List Migration) (now : Nat) :
    List String → Db S → List String × Option (Db S)
  | [], tx => ([], some tx)
  | id :: rest, tx =>
    if isMigrationApplied committed id then
      upLoop exec fs srcdir committed now rest tx
    else
      match runScript exec fs (srcdir ++ "/" ++ id ++ ".up.sql") tx.schema with
      | none => ([], none)
      | some s' =>
        match registerMigration tx.ledger id now with
        | none => ([], none)
        | some l' =>
          let r := upLoop exec fs srcdir committed now rest ⟨l', s'⟩
          (id :: r.1, r.2)

/-- `doUp`: apply every directory migration not yet applied, in ascending
id order, inside one transaction; commit at the end, roll back on any
failure. -/
def doUp {S : Type} (exec : String → S → Option S) (fs : FS)
    (srcdir : String) (db : Db S) (now : Nat) : Db S × List String × Bool :=
  let r := upLoop exec fs srcdir db.ledger now (listDirMigrations fs) db
  match r.2 with
  | some tx => (tx, r.1, true)
  | none => (db, r.1, false)

/-! ## The `down` command -/

/-- The count argument of `down`: default 1 when absent, else `Atoi`. -/
def parseCount (arg : String) : Option Int :=
  if arg = "" then some 1 else atoi arg

/-- The loop of `doDown`: `for i := 0; i < n; i++ { j := len-1-i; if j < 0
break ... }`, fed with the applied records already reversed (most recent
first), so the `j < 0` break is running out of records. -/
def downLoop {S : Type} (exec : String → S → Option S) (fs : FS)
    (srcdir : String) :
    List Migration → Nat → Db S → List String × Option (Db S)
  | _, 0, tx => ([], some tx)
  | [], _ + 1, tx => ([], some tx)
  | r :: rest, n + 1, tx =>
    match runScript exec fs (srcdir ++ "/" ++ r.id ++ ".down.sql") tx.schema with
    | none => ([], none)
    | some s' =>
      let res := downLoop exec fs srcdir rest n ⟨unregisterMigration tx.ledger r.id, s'⟩
      (r.id :: res.1, res.2)

/-- `doDown`: revert the last `n` applied migrations (default 1), most
recent first, inside one transaction; commit at the end, roll back on any
failure.  A negative `n` runs zero loop iterations (`Int.toNat` clamps,
matching `for i := 0; i < n`). -/
def doDown {S : Type} (exec : String → S → Option S) (fs : FS)
    (srcdir : String) (db : Db S) (arg : String) : Db S × List String × Bool :=
  match parseCount arg with
  | none => (db, [], false)
  | some n =>
    let r := downLoop exec fs srcdir
      (listAppliedMigrations db.ledger).reverse n.toNat db
    match r.2 with
    | some tx => (tx, r.1, true)
    | none => (db, r.1, false)

/-! ## The `new` command -/

/-- Label normalisation in `doNew`: default `"unnamed"`, spaces replaced
by underscores (Go `strings.ReplaceAll label " " "_"`). -/
def normLabel (lbl : String) : String :=
  ⟨(if lbl = "" then "unnamed" else lbl).data.map
    (fun c => if c = ' ' then '_' else c)⟩

/-- The two filenames `doNew` computes: last directory entry (sentinel
`"0000_unnamed.up.sql"` when the directory is empty), serial = text
before the first `"_"` parsed by `Atoi`, next serial = serial + 1 in
64-bit wrap-around arithmetic (Go `int`), zero-padded to four digits,
label normalised. -/
def newFileNames (fs : FS) (srcdir lbl : String) : Option (String × String) :=
  let entries := readDir fs srcdir
  let last := entries.getLast?.getD "0000_unnamed.up.sql"
  match cut last "_" with
  | none => none
  | some (serial, _) =>
    match atoi serial with
    | none => none
    | some n =>
      let stem := srcdir ++ "/" ++ pad4 (wrap64 (n + 1)) ++ "_" ++ normLabel lbl
      some (stem ++ ".up.sql", stem ++ ".down.sql")

/-- `doNew`: scaffold the next migration file pair (up file first, then
down file), both empty. -/
def doNew (fs : FS) (srcdir lbl : String) : Option FS :=
  match newFileNames fs srcdir lbl with
  | none => none
  | some (up, down) => some (createFile (createFile fs up) down)

/-! ## Derived notions -/

/-- The ids recorded in the ledger. -/
def ledgerIds (ledger : List Migration) : List String :=
  ledger.map (fun r => r.id)

/-- The pending set of an `up` run: directory ids not yet applied, in the
order `doUp` processes them. -/
def pendingIds (fs : FS) (ledger : List Migration) : List String :=
  (listDirMigrations fs).filter (fun id => !isMigrationApplied ledger id)

/-- States reachable by running the program's commands, with the directory
contents changed only by the program itself.  `init` and `status` do not
change the ledger or the filesystem and are covered by `refl`.  The SQL
semantics `exec` is fixed; the flag and arguments may differ per run. -/
inductive Reach {S : Type} (exec : String → S → Option S) :
    Db S × FS → Db S × FS → Prop
  | refl (s : Db S × FS) : Reach exec s s
  | up {s : Db S × FS} {db db' : Db S} {fs : FS} {out : List String} {ok : Bool}
      (d : String) (now : Nat) :
      Reach exec s (db, fs) → doUp exec fs d db now = (db', out, ok) →
      Reach exec s (db', fs)
  | down {s : Db S × FS} {db db' : Db S} {fs : FS} {out : List String} {ok : Bool}
      (d arg : String) :
      Reach exec s (db, fs) → doDown exec fs d db arg = (db', out, ok) →
      Reach exec s (db', fs)
  | new {s : Db S × FS} {db : Db S} {fs fs' : FS} (d lbl : String) :
      Reach exec s (db, fs) → doNew fs d lbl = some fs' →
      Reach exec s (db, fs')

/-! ## Order lemmas -/

theorem leList_iff_lex : ∀ as bs : List Char,
    leList as bs = true ↔ (List.Lex (· < ·) as bs ∨ as = bs) := by
  intro as
  induction as with
  | nil =>
    intro bs
    cases bs with
    | nil => simp [leList]
    | cons b bs =>
      simp only [leList]
      exact ⟨fun _ => Or.inl List.Lex.nil, fun _ => trivial⟩
  | cons a as ih =>
    intro bs
    cases bs with
    | nil =>
      simp only [leList]
      constructor
      · intro h
        exact absurd h (by simp)
      · rintro (h | h)
        · cases h
        · exact absurd h (by simp)
    | cons b bs =>
      simp only [leList]
      by_cases hab : a = b
      · subst hab
        rw [if_pos rfl, ih bs]
        constructor
        · rintro (h | rfl)
          · exact Or.inl (List.Lex.cons h)
          · exact Or.inr rfl
        · rintro (h | heq)
          · cases h with
            | cons h' => exact Or.inl h'
            | rel h' => exact absurd h' (lt_irrefl a)
          · injection heq with _ h2
            exact Or.inr h2
      · rw [if_neg hab]
        constructor
        · intro h
          exact Or.inl (List.Lex.rel (of_decide_eq_true h))
        · rintro (h | heq)
          · cases h with
            | cons h' => exact absurd rfl hab
            | rel h' => exact decide_eq_true h'
          · injection heq with h1 _
            exact absurd h1 hab

/-- The embedded string comparison agrees with the standard order. -/
theorem strLe_iff_le (a b : String) : strLe a b = true ↔ a ≤ b := by
  rw [String.le_iff_toList_le, le_iff_lt_or_eq]
  exact leList_iff_lex a.data b.data

theorem strLe_trans : ∀ a b c : String, strLe a b = true → strLe b c = true →
    strLe a c = true := by
  intro a b c h1 h2
  rw [strLe_iff_le] at h1 h2 ⊢
  exact le_trans h1 h2

theorem strLe_total : ∀ a b : String, (strLe a b || strLe b a) = true := by
  intro a b
  rw [Bool.or_eq_true, strLe_iff_le, strLe_iff_le]
  exact le_total a b

theorem migLe_trans : ∀ a b c : Migration, migLe a b = true → migLe b c = true →
    migLe a c = true := by
  intro a b c
  simp only [migLe, Bool.or_eq_true, Bool.and_eq_true, decide_eq_true_eq,
    strLe_iff_le]
  rintro (h1 | ⟨h1, h1'⟩) (h2 | ⟨h2, h2'⟩)
  · exact Or.inl (h1.trans h2)
  · exact Or.inl (h2 ▸ h1)
  · exact Or.inl (h1 ▸ h2)
  · exact Or.inr ⟨h1.trans h2, h1'.trans h2'⟩

theorem migLe_total : ∀ a b : Migration, (migLe a b || migLe b a) = true := by
  intro a b
  simp only [migLe, Bool.or_eq_true, Bool.and_eq_true, decide_eq_true_eq,
    strLe_iff_le]
  rcases lt_trichotomy a.applied b.applied with h | h | h
  · exact Or.inl (Or.inl h)
  · rcases le_total a.id b.id with h' | h'
    · exact Or.inl (Or.inr ⟨h, h'⟩)
    · exact Or.inr (Or.inr ⟨h.symm, h'⟩)
  · exact Or.inr (Or.inl h)

/-! ## Sorting lemmas -/

theorem insertLe_perm {α : Type} (le : α → α → Bool) (a : α) (l : List α) :
    (insertLe le a l).Perm (a :: l) := by
  induction l with
  | nil => exact List.Perm.refl _
  | cons b l ih =>
    simp only [insertLe]
    by_cases h : le a b
    · rw [if_pos h]
    · rw [if_neg h]
      exact (ih.cons b).trans (List.Perm.swap a b l)

theorem sortLe_perm {α : Type} (le : α → α → Bool) (l : List α) :
    (sortLe le l).Perm l := by
  induction l with
  | nil => exact List.Perm.refl _
  | cons a l ih => exact (insertLe_perm le a (sortLe le l)).trans (ih.cons a)

theorem mem_sortLe {α : Type} {le : α → α → Bool} {a : α} {l : List α} :
    a ∈ sortLe le l ↔ a ∈ l :=
  (sortLe_perm le l).mem_iff

theorem pairwise_insertLe {α : Type} {le : α → α → Bool}
    (htrans : ∀ a b c, le a b = true → le b c = true → le a c = true)
    (htotal : ∀ a b, (le a b || le b a) = true)
    {a : α} {l : List α} (hl : l.Pairwise (fun x y => le x y = true)) :
    (insertLe le a l).Pairwise (fun x y => le x y = true) := by
  induction l with
  | nil => simp [insertLe]
  | cons b l ih =>
    rcases List.pairwise_cons.mp hl with ⟨hb, hl'⟩
    simp only [insertLe]
    by_cases h : le a b
    · rw [if_pos h]
      refine List.pairwise_cons.mpr ⟨?_, hl⟩
      intro x hx
      rcases List.mem_cons.mp hx with rfl | hx
      · exact h
      · exact htrans a b x h (hb x hx)
    · rw [if_neg h]
      have hba : le b a = true := by
        rcases Bool.or_eq_true _ _ |>.mp (htotal a b) with hab | hba
        · exact absurd hab h
        · exact hba
      refine List.pairwise_cons.mpr ⟨?_, ih hl'⟩
      intro x hx
      have hx' := (insertLe_perm le a l).mem_iff.mp hx
      rcases List.mem_cons.mp hx' with rfl | hx''
      · exact hba
      · exact hb x hx''

theorem pairwise_sortLe {α : Type} {le : α → α → Bool}
    (htrans : ∀ a b c, le a b = true → le b c = true → le a c = true)
    (htotal : ∀ a b, (le a b || le b a) = true) (l : List α) :
    (sortLe le l).Pairwise (fun x y => le x y = true) := by
  induction l with
  | nil => simp [sortLe]
  | cons a l ih => exact pairwise_insertLe htrans htotal ih

/-- The pending list of an `up` run is in ascending string order. -/
theorem pendingIds_sorted (fs : FS) (ledger : List Migration) :
    List.Pairwise (fun a b : String => a ≤ b) (pendingIds fs ledger) := by
  have hs := pairwise_sortLe strLe_trans strLe_total
    ((readDir fs "migrations").filterMap (fun n => cutSuffix n ".up.sql"))
  have hf := hs.filter (fun id => !isMigrationApplied ledger id)
  exact hf.imp (fun h => (strLe_iff_le _ _).mp h)

/-! ## `upLoop` and `doUp` lemmas -/

/-- A successful `upLoop` prints exactly the ids of `ids` that are not in
the committed ledger, in order, and appends one record per printed id to
the transaction ledger. -/
theorem upLoop_ok {S : Type} (exec : String → S → Option S) (fs : FS)
    (srcdir : String) (committed : List Migration) (now : Nat)
    (ids : List String) :
    ∀ (tx tx' : Db S),
      (upLoop exec fs srcdir committed now ids tx).2 = some tx' →
      (upLoop exec fs srcdir committed now ids tx).1
          = ids.filter (fun id => !isMigrationApplied committed id)
      ∧ tx'.ledger = tx.ledger
          ++ (ids.filter (fun id => !isMigrationApplied committed id)).map
              (fun id => Migration.mk id now) := by
  induction ids with
  | nil =>
    intro tx tx' h
    simp only [upLoop, Option.some.injEq] at h
    subst h
    simp [upLoop]
  | cons id rest ih =>
    intro tx tx' h
    by_cases hap : isMigrationApplied committed id
    · simp only [upLoop, if_pos hap] at h
      have := ih tx tx' h
      simpa [upLoop, hap] using this
    · rcases hs : runScript exec fs (srcdir ++ "/" ++ id ++ ".up.sql") tx.schema with
        _ | s'
      · simp [upLoop, hap, hs] at h
      · rcases hr : registerMigration tx.ledger id now with _ | l'
        · simp [upLoop, hap, hs, hr] at h
        · have hl' : l' = tx.ledger ++ [Migration.mk id now] := by
            simp only [registerMigration] at hr
            split at hr
            · exact absurd hr (by simp)
            · exact (Option.some.injEq _ _ ▸ hr).symm
          simp only [upLoop, if_neg hap, hs, hr] at h ⊢
          have := ih ⟨l', s'⟩ tx' h
          refine ⟨?_, ?_⟩
          · simp [hap, this.1]
          · rw [this.2, hl']
            simp [hap]

/-- `upLoop` over ids that are all applied does nothing. -/
theorem upLoop_skip {S : Type} (exec : String → S → Option S) (fs : FS)
    (srcdir : String) (committed : List Migration) (now : Nat)
    (ids : List String)
    (h : ∀ id ∈ ids, isMigrationApplied committed id = true) :
    ∀ tx : Db S, upLoop exec fs srcdir committed now ids tx = ([], some tx) := by
  induction ids with
  | nil => intro tx; rfl
  | cons id rest ih =>
    intro tx
    have hid : isMigrationApplied committed id = true := h id (by simp)
    simp only [upLoop, if_pos hid]
    exact ih (fun i hi => h i (by simp [hi])) tx

/-- A successful `doUp` run prints exactly the pending ids and appends
one record per pending id to the ledger. -/
theorem doUp_ok {S : Type} (exec : String → S → Option S) (fs : FS)
    (srcdir : String) (db : Db S) (now : Nat) (db' : Db S)
    (out : List String)
    (h : doUp exec fs srcdir db now = (db', out, true)) :
    out = pendingIds fs db.ledger
    ∧ db'.ledger = db.ledger
        ++ (pendingIds fs db.ledger).map (fun id => Migration.mk id now) := by
  simp only [doUp] at h
  rcases hloop : (upLoop exec fs srcdir db.ledger now (listDirMigrations fs) db).2
    with _ | tx
  · rw [hloop] at h
    simp at h
  · rw [hloop] at h
    simp only [Prod.mk.injEq] at h
    obtain ⟨h1, h2, -⟩ := h
    have := upLoop_ok exec fs srcdir db.ledger now (listDirMigrations fs) db tx hloop
    subst h1
    exact ⟨h2 ▸ this.1, this.2⟩

/-- A failed `doUp` run rolls the database back: it is returned unchanged. -/
theorem doUp_fail {S : Type} (exec : String → S → Option S) (fs : FS)
    (srcdir : String) (db : Db S) (now : Nat) (db' : Db S)
    (out : List String)
    (h : doUp exec fs srcdir db now = (db', out, false)) :
    db' = db := by
  simp only [doUp] at h
  rcases hloop : (upLoop exec fs srcdir db.ledger now (listDirMigrations fs) db).2
    with _ | tx
  · rw [hloop] at h
    simp only [Prod.mk.injEq] at h
    exact h.1.symm
  · rw [hloop] at h
    simp at h

/-! ## `downLoop` and `doDown` lemmas -/

/-- A successful `downLoop` prints the ids of the first `n` records of
its input (most recent first, stopping when the records run out) and
deletes exactly those rows from the transaction ledger. -/
theorem downLoop_ok {S : Type} (exec : String → S → Option S) (fs : FS)
    (srcdir : String) :
    ∀ (recs : List Migration) (n : Nat) (tx tx' : Db S),
      (downLoop exec fs srcdir recs n tx).2 = some tx' →
      (downLoop exec fs srcdir recs n tx).1
          = (recs.take n).map (fun r => r.id)
      ∧ tx'.ledger = tx.ledger.filter
          (fun r => !(recs.take n).any (fun q => q.id == r.id)) := by
  intro recs
  induction recs with
  | nil =>
    intro n tx tx' h
    match n with
    | 0 =>
      simp only [downLoop, Option.some.injEq] at h
      subst h
      simp [downLoop]
    | n + 1 =>
      simp only [downLoop, Option.some.injEq] at h
      subst h
      simp [downLoop]
  | cons r rest ih =>
    intro n tx tx' h
    match n with
    | 0 =>
      simp only [downLoop, Option.some.injEq] at h
      subst h
      simp [downLoop]
    | n + 1 =>
      rcases hs : runScript exec fs (srcdir ++ "/" ++ r.id ++ ".down.sql") tx.schema
        with _ | s'
      · simp [downLoop, hs] at h
      · simp only [downLoop, hs] at h ⊢
        have := ih n ⟨unregisterMigration tx.ledger r.id, s'⟩ tx' h
        refine ⟨by simp [this.1], ?_⟩
        rw [this.2]
        simp only [unregisterMigration, List.filter_filter]
        refine List.filter_congr ?_
        intro q _
        simp only [List.take_succ_cons, List.any_cons, Bool.not_or]
        rw [Bool.and_comm]
        congr 1
        by_cases hqr : q.id = r.id
        · rw [hqr]
          simp [bne]
        · simp only [bne]
          rw [beq_eq_false_iff_ne.mpr hqr,
            beq_eq_false_iff_ne.mpr (fun h' => hqr h'.symm)]

/-- `downLoop` succeeds when the down-script of every record in its input
runs without error from every schema state. -/
theorem downLoop_some {S : Type} (exec : String → S → Option S) (fs : FS)
    (srcdir : String) :
    ∀ (recs : List Migration) (n : Nat) (tx : Db S),
      (∀ r ∈ recs, ∀ s : S,
        (runScript exec fs (srcdir ++ "/" ++ r.id ++ ".down.sql") s).isSome) →
      ∃ tx', (downLoop exec fs srcdir recs n tx).2 = some tx' := by
  intro recs
  induction recs with
  | nil =>
    intro n tx _
    match n with
    | 0 => exact ⟨tx, rfl⟩
    | n + 1 => exact ⟨tx, rfl⟩
  | cons r rest ih =>
    intro n tx hall
    match n with
    | 0 => exact ⟨tx, rfl⟩
    | n + 1 =>
      have hr := hall r (by simp) tx.schema
      rcases hs : runScript exec fs (srcdir ++ "/" ++ r.id ++ ".down.sql") tx.schema
        with _ | s'
      · rw [hs] at hr
        simp at hr
      · obtain ⟨tx', htx'⟩ := ih n ⟨unregisterMigration tx.ledger r.id, s'⟩
          (fun q hq s => hall q (by simp [hq]) s)
        exact ⟨tx', by simp [downLoop, hs, htx']⟩

/-- A successful `doDown` run prints the ids of the last
`min n (number applied)` applied records, most recent first, and deletes
exactly those rows from the ledger. -/
theorem doDown_ok {S : Type} (exec : String → S → Option S) (fs : FS)
    (srcdir : String) (db : Db S) (arg : String) (n : Int) (db' : Db S)
    (out : List String)
    (hn : parseCount arg = some n)
    (h : doDown exec fs srcdir db arg = (db', out, true)) :
    out = ((listAppliedMigrations db.ledger).reverse.take n.toNat).map
        (fun r => r.id)
    ∧ db'.ledger = db.ledger.filter (fun r =>
        !((listAppliedMigrations db.ledger).reverse.take n.toNat).any
          (fun q => q.id == r.id)) := by
  simp only [doDown, hn] at h
  rcases hloop : (downLoop exec fs srcdir
      (listAppliedMigrations db.ledger).reverse n.toNat db).2 with _ | tx
  · rw [hloop] at h
    simp at h
  · rw [hloop] at h
    simp only [Prod.mk.injEq] at h
    obtain ⟨h1, h2, -⟩ := h
    have := downLoop_ok exec fs srcdir (listAppliedMigrations db.ledger).reverse
      n.toNat db tx hloop
    subst h1
    exact ⟨h2 ▸ this.1, this.2⟩

/-- A failed `doDown` run rolls the database back: it is returned
unchanged. -/
theorem doDown_fail {S : Type} (exec : String → S → Option S) (fs : FS)
    (srcdir : String) (db : Db S) (arg : String) (db' : Db S)
    (out : List String)
    (h : doDown exec fs srcdir db arg = (db', out, false)) :
    db' = db := by
  rcases hn : parseCount arg with _ | n
  · simp only [doDown, hn] at h
    simp only [Prod.mk.injEq] at h
    exact h.1.symm
  · simp only [doDown, hn] at h
    rcases hloop : (downLoop exec fs srcdir
        (listAppliedMigrations db.ledger).reverse n.toNat db).2 with _ | tx
    · rw [hloop] at h
      simp only [Prod.mk.injEq] at h
      exact h.1.symm
    · rw [hloop] at h
      simp at h

/-! ## String and filesystem lemmas -/

theorem append_right_cancel_str (a b t : String) (h : a ++ t = b ++ t) :
    a = b := by
  have h2 := congrArg String.data h
  simp only [String.data_append] at h2
  exact String.ext (List.append_cancel_right h2)

/-- The two filenames `doNew` computes are distinct. -/
theorem upName_ne_downName (stem : String) :
    stem ++ ".up.sql" ≠ stem ++ ".down.sql" := by
  intro h
  have h2 := congrArg String.length h
  rw [String.length_append, String.length_append] at h2
  have hu : (".up.sql" : String).length = 7 := by decide
  have hd : (".down.sql" : String).length = 9 := by decide
  omega

/-- Creating a file makes it exist with empty content. -/
theorem readFile_createFile_self (fs : FS) (p : String) :
    readFile (createFile fs p) p = some "" := by
  simp only [readFile, createFile]
  rw [List.find?_append]
  have hleft : (fs.filter (fun x => x.1 != p)).find? (fun x => x.1 == p) = none := by
    rw [List.find?_eq_none]
    intro x hx
    have := (List.mem_filter.mp hx).2
    simp only [bne, Bool.not_eq_true'] at this
    simp [this]
  rw [hleft]
  simp

/-- Creating a file leaves every other path's content unchanged. -/
theorem readFile_createFile_ne (fs : FS) (p q : String) (h : p ≠ q) :
    readFile (createFile fs q) p = readFile fs p := by
  simp only [readFile, createFile]
  rw [List.find?_append]
  have hright : ([(q, "")].find? (fun x => x.1 == p)) = none := by
    rw [List.find?_eq_none]
    intro x hx
    simp only [List.mem_singleton] at hx
    subst hx
    simp only [beq_iff_eq]
    exact Ne.symm h
  rw [hright]
  have hfilter : (fs.filter (fun x => x.1 != q)).find? (fun x => x.1 == p)
      = fs.find? (fun x => x.1 == p) := by
    induction fs with
    | nil => rfl
    | cons x l ih =>
      by_cases hxq : x.1 = q
      · have hqp : (q == p) = false := beq_eq_false_iff_ne.mpr (Ne.symm h)
        simp [List.filter_cons, hxq, List.find?_cons, hqp, ih]
      · simp only [List.filter_cons, bne, hxq]
        rcases hxp : (x.1 == p) with _ | _
        · simpa [List.find?_cons, hxp, beq_eq_false_iff_ne.mpr hxq] using ih
        · simp [List.find?_cons, hxp, beq_eq_false_iff_ne.mpr hxq]
  rw [hfilter]
  cases fs.find? (fun x => x.1 == p) <;> simp

/-- Every path present in `fs` is still present after `createFile`. -/
theorem mem_fst_createFile {fs : FS} {p : String} (q : String)
    (h : p ∈ fs.map Prod.fst) : p ∈ (createFile fs q).map Prod.fst := by
  by_cases hpq : p = q
  · subst hpq
    simp [createFile]
  · simp only [createFile, List.map_append, List.mem_append]
    left
    obtain ⟨x, hx, hxp⟩ := List.mem_map.mp h
    refine List.mem_map.mpr ⟨x, List.mem_filter.mpr ⟨hx, ?_⟩, hxp⟩
    subst hxp
    simp [bne, beq_eq_false_iff_ne.mpr hpq]

/-- Directory-scan membership is monotone in the set of paths of the
filesystem. -/
theorem mem_listDirMigrations_mono {fs fs' : FS}
    (hsub : ∀ p ∈ fs.map Prod.fst, p ∈ fs'.map Prod.fst) :
    ∀ id ∈ listDirMigrations fs, id ∈ listDirMigrations fs' := by
  intro id hid
  simp only [listDirMigrations, readDir, mem_sortLe,
    List.mem_filterMap] at hid ⊢
  obtain ⟨n, ⟨p, hp, hpn⟩, hn⟩ := hid
  exact ⟨n, ⟨p, hsub p hp, hpn⟩, hn⟩

/-- `strconv.Atoi` only returns values in the signed 64-bit range. -/
theorem atoi_range {s : String} {n : Int} (h : atoi s = some n) :
    -(9223372036854775808 : Int) ≤ n ∧ n < 9223372036854775808 := by
  simp only [atoi, Option.bind_eq_some] at h
  obtain ⟨m, -, hm⟩ := h
  split at hm
  · rename_i hr
    injection hm with hm
    subst hm
    exact hr
  · exact absurd hm (by simp)

/-- 64-bit wrap-around is the identity inside the signed 64-bit range. -/
theorem wrap64_eq_self {m : Int} (h1 : -(9223372036854775808 : Int) ≤ m)
    (h2 : m < 9223372036854775808) : wrap64 m = m := by
  unfold wrap64
  rw [Int.emod_eq_of_lt (by omega) (by omega)]
  omega

/-- The filesystem a successful `doNew` produces. -/
theorem doNew_shape {fs fs' : FS} {d lbl : String}
    (h : doNew fs d lbl = some fs') :
    ∃ u v, newFileNames fs d lbl = some (u, v)
      ∧ fs' = createFile (createFile fs u) v := by
  simp only [doNew] at h
  rcases hnames : newFileNames fs d lbl with _ | ⟨u, v⟩
  · rw [hnames] at h
    simp at h
  · rw [hnames] at h
    simp only [Option.some.injEq] at h
    exact ⟨u, v, rfl, h.symm⟩

/-! ## Concrete fixtures used by witnesses and counterexamples -/

/-- The spec's worked example: two directory migrations. -/
def exFs : FS :=
  [("migrations/0001_init.up.sql", "A"), ("migrations/0002_add_users.up.sql", "B")]

/-- The spec's worked example: a ledger already containing `0001_init`. -/
def exLedger : List Migration := [⟨"0001_init", 0⟩]

/-- An SQL oracle (trivial schema) for which every script succeeds. -/
def exGood : String → Unit → Option Unit := fun _ s => some s

/-- An SQL oracle failing exactly on the script text `"BAD"`. -/
def exFail : String → Unit → Option Unit :=
  fun sql s => if sql = "BAD" then none else some s

/-- Three directory migrations whose second script is invalid SQL. -/
def fs3 : FS :=
  [("migrations/0001_a.up.sql", "ok1"), ("migrations/0002_b.up.sql", "BAD"),
   ("migrations/0003_c.up.sql", "ok3")]

/-- A ledger of three applied migrations. -/
def dLedger : List Migration := [⟨"0001_a", 1⟩, ⟨"0002_b", 2⟩, ⟨"0003_c", 3⟩]

/-- Down-scripts for `dLedger` under source directory `"m"`. -/
def dFs : FS :=
  [("m/0003_c.down.sql", "x"), ("m/0002_b.down.sql", "y"), ("m/0001_a.down.sql", "z")]

/-- One migration under the fixed listing directory `"migrations"`. -/
def fsTen : FS := [("migrations/0001_x.up.sql", "CREATE")]

/-! ## Claims -/

/-- C1: a successful `up` run executes exactly the up-scripts of the
directory migration ids not present in the applied set, in ascending string
order of id, and inserts one applied record for each (timestamped with the
transaction time) within the same transaction; moreover directory ids
`{0001_init, 0002_add_users}` with ledger `{0001_init}` yield pending
`["0002_add_users"]`. -/
theorem c1_up_applies_pending {S : Type} (exec : String → S → Option S)
    (fs : FS) (srcdir : String) (db : Db S) (now : Nat) (db' : Db S)
    (out : List String)
    (h : doUp exec fs srcdir db now = (db', out, true)) :
    out = pendingIds fs db.ledger
    ∧ List.Pairwise (fun a b : String => a ≤ b) out
    ∧ db'.ledger = db.ledger
        ++ (pendingIds fs db.ledger).map (fun id => Migration.mk id now)
    ∧ pendingIds exFs exLedger = ["0002_add_users"] := by
  obtain ⟨h1, h2⟩ := doUp_ok exec fs srcdir db now db' out h
  refine ⟨h1, ?_, h2, by decide⟩
  rw [h1]
  exact pendingIds_sorted fs db.ledger

/-- C1 witness: the spec's worked example, pending `["0002_add_users"]`. -/
theorem c1_up_applies_pending_witness :
    ["0002_add_users"] = pendingIds exFs exLedger
    ∧ (Db.mk (exLedger ++ [Migration.mk "0002_add_users" 5]) () : Db Unit).ledger
        = exLedger ++ (pendingIds exFs exLedger).map (fun id => Migration.mk id 5) := by
  have h := c1_up_applies_pending exGood exFs "migrations" (Db.mk exLedger ()) 5
    (Db.mk (exLedger ++ [Migration.mk "0002_add_users" 5]) ())
    ["0002_add_users"] (by decide)
  exact ⟨h.1, h.2.2.1⟩

/-- C2: if any up-script or ledger registration fails during an `up` run the
whole batch is aborted — the returned database, ledger included, is exactly
the one from before the run, with zero of the batch's new ids recorded — and
the single commit happens only on a run that processed every pending
migration successfully. -/
theorem c2_up_atomic {S : Type} (exec : String → S → Option S) (fs : FS)
    (srcdir : String) (db : Db S) (now : Nat) :
    ((doUp exec fs srcdir db now).2.2 = false →
      (doUp exec fs srcdir db now).1 = db)
    ∧ ((doUp exec fs srcdir db now).2.2 = true →
      (doUp exec fs srcdir db now).2.1 = pendingIds fs db.ledger) := by
  rcases he : doUp exec fs srcdir db now with ⟨db', out, ok⟩
  constructor
  · intro hf
    simp only at hf
    subst hf
    exact doUp_fail exec fs srcdir db now db' out he
  · intro ht
    simp only at ht
    subst ht
    exact (doUp_ok exec fs srcdir db now db' out he).1

/-- C2 witness: three pending migrations, the second with invalid SQL —
the run fails and the database is unchanged (zero of the three recorded). -/
theorem c2_up_atomic_witness :
    (doUp exFail fs3 "migrations" (Db.mk [] ()) 7).2.2 = false
    ∧ (doUp exFail fs3 "migrations" (Db.mk [] ()) 7).1 = Db.mk [] () :=
  ⟨by decide, (c2_up_atomic exFail fs3 "migrations" (Db.mk [] ()) 7).1 (by decide)⟩

/-- C5: `listAppliedMigrations` returns all rows of the ledger (a
permutation), ordered ascending by applied time with ties broken by the id
string ascending, and an empty ledger yields the empty list, not an error. -/
theorem c5_listApplied_sorted (ledger : List Migration) :
    (listAppliedMigrations ledger).Perm ledger
    ∧ List.Pairwise (fun a b : Migration =>
        a.applied < b.applied ∨ (a.applied = b.applied ∧ a.id ≤ b.id))
        (listAppliedMigrations ledger)
    ∧ listAppliedMigrations [] = [] := by
  refine ⟨sortLe_perm migLe ledger, ?_, rfl⟩
  have hs := pairwise_sortLe migLe_trans migLe_total ledger
  exact hs.imp (fun hab => by
    simpa [migLe, Bool.or_eq_true, Bool.and_eq_true, decide_eq_true_eq,
      strLe_iff_le] using hab)

/-- C7: after a successful `up` run every directory id is applied, so a
second `up` run — with any source directory, SQL oracle and time — applies
zero migrations and leaves the database unchanged. -/
theorem c7_up_idempotent {S : Type} (exec exec2 : String → S → Option S)
    (fs : FS) (d d2 : String) (db db1 : Db S) (now now2 : Nat)
    (out : List String)
    (h : doUp exec fs d db now = (db1, out, true)) :
    (∀ id ∈ listDirMigrations fs, isMigrationApplied db1.ledger id = true)
    ∧ doUp exec2 fs d2 db1 now2 = (db1, [], true) := by
  obtain ⟨h1, h2⟩ := doUp_ok exec fs d db now db1 out h
  have hap : ∀ id ∈ listDirMigrations fs, isMigrationApplied db1.ledger id = true := by
    intro id hid
    rw [h2]
    simp only [isMigrationApplied, List.any_append, Bool.or_eq_true]
    by_cases hap0 : isMigrationApplied db.ledger id
    · left
      simpa [isMigrationApplied] using hap0
    · right
      have hpend : id ∈ pendingIds fs db.ledger :=
        List.mem_filter.mpr ⟨hid, by simp [hap0]⟩
      simp only [List.any_eq_true]
      exact ⟨Migration.mk id now, List.mem_map.mpr ⟨id, hpend, rfl⟩, by simp⟩
  refine ⟨hap, ?_⟩
  simp only [doUp]
  rw [upLoop_skip exec2 fs d2 db1.ledger now2 (listDirMigrations fs) hap db1]

/-- C7 witness: the second run on the worked example applies nothing. -/
theorem c7_up_idempotent_witness :
    doUp exGood exFs "migrations"
        (Db.mk (exLedger ++ [Migration.mk "0002_add_users" 5]) ()) 9
      = (Db.mk (exLedger ++ [Migration.mk "0002_add_users" 5]) (), [], true) :=
  (c7_up_idempotent exGood exGood exFs "migrations" "migrations"
    (Db.mk exLedger ()) (Db.mk (exLedger ++ [Migration.mk "0002_add_users" 5]) ())
    5 9 ["0002_add_users"] (by decide)).2

/-- C3: for every ledger state and requested count N ≥ 1, a successful
`down` run selects the last N records of the applied list ordered by
(applied, id) ascending — i.e. the first N of its reverse — prints them from
most- to less-recent, and deletes exactly those rows from the ledger within
the same transaction, committing once after the batch. -/
theorem c3_down_reverts_last {S : Type} (exec : String → S → Option S)
    (fs : FS) (srcdir : String) (db : Db S) (arg : String) (n : Int)
    (db' : Db S) (out : List String)
    (hn : parseCount arg = some n) (hpos : 1 ≤ n)
    (h : doDown exec fs srcdir db arg = (db', out, true)) :
    out = ((listAppliedMigrations db.ledger).reverse.take n.toNat).map
        (fun r => r.id)
    ∧ db'.ledger = db.ledger.filter (fun r =>
        !((listAppliedMigrations db.ledger).reverse.take n.toNat).any
          (fun q => q.id == r.id)) :=
  doDown_ok exec fs srcdir db arg n db' out hn h

/-- C3 witness: three applied migrations, `down 2` reverts the two most
recent. -/
theorem c3_down_reverts_last_witness :
    ["0003_c", "0002_b"]
        = ((listAppliedMigrations dLedger).reverse.take (Int.toNat 2)).map
            (fun r => r.id)
    ∧ (Db.mk [Migration.mk "0001_a" 1] () : Db Unit).ledger
        = dLedger.filter (fun r =>
            !((listAppliedMigrations dLedger).reverse.take (Int.toNat 2)).any
              (fun q => q.id == r.id)) := by
  have h := c3_down_reverts_last exGood dFs "m" (Db.mk dLedger ()) "2" 2
    (Db.mk [Migration.mk "0001_a" 1] ()) ["0003_c", "0002_b"]
    (by decide) (by decide) (by decide)
  exact ⟨h.1, h.2⟩

/-- C4: when `down` is requested with a count larger than the number of
applied migrations (and each applied migration's down-script runs without
error), it reverts exactly the migrations that exist — most recent first —
empties the ledger and returns success: no "not enough to revert" error and
no out-of-range access. -/
theorem c4_down_truncates {S : Type} (exec : String → S → Option S)
    (fs : FS) (srcdir : String) (db : Db S) (arg : String) (n : Int)
    (hn : parseCount arg = some n)
    (hgt : (db.ledger.length : Int) < n)
    (hs : ∀ r ∈ db.ledger, ∀ s : S,
        (runScript exec fs (srcdir ++ "/" ++ r.id ++ ".down.sql") s).isSome) :
    ∃ db' : Db S,
      doDown exec fs srcdir db arg
          = (db', (listAppliedMigrations db.ledger).reverse.map (fun r => r.id),
             true)
      ∧ db'.ledger = [] := by
  have hmem : ∀ r ∈ (listAppliedMigrations db.ledger).reverse, r ∈ db.ledger := by
    intro r hr
    exact mem_sortLe.mp (List.mem_reverse.mp hr)
  have hnn : (0 : Int) ≤ n :=
    le_of_lt (lt_of_le_of_lt (Int.natCast_nonneg db.ledger.length) hgt)
  have hlen : (listAppliedMigrations db.ledger).reverse.length ≤ n.toNat := by
    have hlen2 : (listAppliedMigrations db.ledger).reverse.length
        = db.ledger.length := by
      rw [List.length_reverse]
      exact (sortLe_perm migLe db.ledger).length_eq
    rw [hlen2]
    exact (Int.le_toNat hnn).mpr (le_of_lt hgt)
  obtain ⟨tx', hloop⟩ := downLoop_some exec fs srcdir
    (listAppliedMigrations db.ledger).reverse n.toNat db
    (fun r hr s => hs r (hmem r hr) s)
  have hchar := downLoop_ok exec fs srcdir
    (listAppliedMigrations db.ledger).reverse n.toNat db tx' hloop
  rw [List.take_of_length_le hlen] at hchar
  refine ⟨tx', ?_, ?_⟩
  · simp only [doDown, hn]
    rw [hloop, hchar.1]
  · rw [hchar.2, List.filter_eq_nil_iff]
    intro r hr
    simp only [Bool.not_eq_true', Bool.not_eq_false, List.any_eq_true]
    exact ⟨r, List.mem_reverse.mpr (mem_sortLe.mpr hr), by simp⟩

/-- C4 witness: three applied migrations, `down 5` reverts all three,
succeeds, and leaves an empty ledger. -/
theorem c4_down_truncates_witness :
    (doDown exGood dFs "m" (Db.mk dLedger ()) "5").1.ledger = []
    ∧ (doDown exGood dFs "m" (Db.mk dLedger ()) "5").2.2 = true := by
  obtain ⟨db', heq, hled⟩ := c4_down_truncates exGood dFs "m" (Db.mk dLedger ())
    "5" 5 (by decide) (by decide) (by decide)
  rw [heq]
  exact ⟨hled, rfl⟩

/-- C6: in every state reachable by the program's own commands from an empty
ledger (the directory changed only by the program itself), every id recorded
in the ledger has a matching up-script in the listing directory. -/
theorem c6_ledger_subset_dir {S : Type} (exec : String → S → Option S)
    (σ : S) (fs0 : FS) (t : Db S × FS)
    (h : Reach exec (Db.mk [] σ, fs0) t) :
    ∀ id ∈ ledgerIds t.1.ledger, id ∈ listDirMigrations t.2 := by
  induction h with
  | refl =>
    intro id hid
    simp [ledgerIds] at hid
  | up d now hr heq ih =>
    rename_i db db' fs out ok
    intro id hid
    cases ok with
    | false =>
      have hdb := doUp_fail _ _ _ _ _ _ _ heq
      subst hdb
      exact ih id hid
    | true =>
      obtain ⟨-, h2⟩ := doUp_ok _ _ _ _ _ _ _ heq
      simp only [ledgerIds, h2, List.map_append, List.mem_append] at hid
      rcases hid with hid | hid
      · exact ih id hid
      · simp only [List.map_map, List.mem_map] at hid
        obtain ⟨i, hi, rfl⟩ := hid
        exact List.mem_of_mem_filter hi
  | down d arg hr heq ih =>
    rename_i db db' fs out ok
    intro id hid
    cases ok with
    | false =>
      have hdb := doDown_fail _ _ _ _ _ _ _ heq
      subst hdb
      exact ih id hid
    | true =>
      rcases hn : parseCount arg with _ | n
      · simp only [doDown, hn] at heq
        simp only [Prod.mk.injEq] at heq
        exact absurd heq.2.2 (by simp)
      · obtain ⟨-, h2⟩ := doDown_ok _ _ _ _ _ _ _ _ hn heq
        simp only [ledgerIds, List.mem_map] at hid
        obtain ⟨r, hr2, rfl⟩ := hid
        rw [h2] at hr2
        exact ih r.id (List.mem_map.mpr ⟨r, List.mem_of_mem_filter hr2, rfl⟩)
  | new d lbl hr hnew ih =>
    intro id hid
    obtain ⟨u, v, -, hshape⟩ := doNew_shape hnew
    refine mem_listDirMigrations_mono ?_ id (ih id hid)
    intro p hp
    subst hshape
    exact mem_fst_createFile v (mem_fst_createFile u hp)

/-- C6 witness: after one `up` run from the empty ledger on the worked
example, the recorded id `0002_add_users` indeed has a directory
up-script. -/
theorem c6_ledger_subset_dir_witness :
    "0002_add_users" ∈ listDirMigrations exFs := by
  have hreach : Reach exGood ((Db.mk [] () : Db Unit), exFs)
      (Db.mk [Migration.mk "0001_init" 5, Migration.mk "0002_add_users" 5] (),
        exFs) :=
    @Reach.up Unit exGood (Db.mk [] (), exFs) (Db.mk [] ())
      (Db.mk [Migration.mk "0001_init" 5, Migration.mk "0002_add_users" 5] ())
      exFs ["0001_init", "0002_add_users"] true "migrations" 5
      (Reach.refl _) (by decide)
  exact c6_ledger_subset_dir exGood () exFs _ hreach "0002_add_users" (by decide)

/-- A directory whose last entry carries the largest serial `Atoi`
accepts (the maximum signed 64-bit integer). -/
def fsMax : FS := [("migrations/9223372036854775807_x.up.sql", "s")]

/-- C8 counterexample: at previous serial 9223372036854775807 (which
`strconv.Atoi` accepts), Go's `n+1` wraps to -9223372036854775808, so
`new x` creates the pair named `-9223372036854775808_x` — not the
`9223372036854775808_x` pair that "next serial = previous serial + 1"
zero-padded would name. -/
theorem c8_counterexample :
    doNew fsMax "migrations" "x"
        = some [("migrations/9223372036854775807_x.up.sql", "s"),
                ("migrations/-9223372036854775808_x.up.sql", ""),
                ("migrations/-9223372036854775808_x.down.sql", "")]
    ∧ readFile [("migrations/9223372036854775807_x.up.sql", "s"),
                ("migrations/-9223372036854775808_x.up.sql", ""),
                ("migrations/-9223372036854775808_x.down.sql", "")]
        "migrations/9223372036854775808_x.up.sql" = none
    ∧ readFile [("migrations/9223372036854775807_x.up.sql", "s"),
                ("migrations/-9223372036854775808_x.up.sql", ""),
                ("migrations/-9223372036854775808_x.down.sql", "")]
        "migrations/-9223372036854775808_x.up.sql" = some "" := by
  refine ⟨by decide, by decide, by decide⟩

/-- C8 (amended): whenever the last directory entry parses (serial before
the first `_`, via `Atoi`; sentinel `0000_unnamed.up.sql` for an empty
directory), the scaffolder computes next serial = previous + 1 in 64-bit
wrap-around arithmetic — equal to previous + 1 whenever the previous
serial is below the maximum signed 64-bit integer — zero-padded to four
digits, normalises the label (spaces → underscores, default `unnamed`),
and creates the two empty files `<serial>_<label>.up.sql` and
`<serial>_<label>.down.sql`; in particular, an empty directory with label
`"create users"` yields `0001_create_users.up.sql` and
`0001_create_users.down.sql`. -/
theorem c8_new_scaffolds (fs : FS) (d lbl serialStr rest : String) (n : Int)
    (h1 : cut ((readDir fs d).getLast?.getD "0000_unnamed.up.sql") "_"
        = some (serialStr, rest))
    (h2 : atoi serialStr = some n) :
    (∃ fs', doNew fs d lbl = some fs'
      ∧ readFile fs'
          (d ++ "/" ++ pad4 (wrap64 (n + 1)) ++ "_" ++ normLabel lbl ++ ".up.sql")
          = some ""
      ∧ readFile fs'
          (d ++ "/" ++ pad4 (wrap64 (n + 1)) ++ "_" ++ normLabel lbl ++ ".down.sql")
          = some "")
    ∧ (n ≠ 9223372036854775807 → wrap64 (n + 1) = n + 1)
    ∧ doNew ([] : FS) "migrations" "create users"
        = some [("migrations/0001_create_users.up.sql", ""),
                ("migrations/0001_create_users.down.sql", "")] := by
  refine ⟨?_, ?_, by decide⟩
  · have hnames : newFileNames fs d lbl
        = some ((d ++ "/" ++ pad4 (wrap64 (n + 1)) ++ "_" ++ normLabel lbl) ++ ".up.sql",
                (d ++ "/" ++ pad4 (wrap64 (n + 1)) ++ "_" ++ normLabel lbl) ++ ".down.sql") := by
      simp only [newFileNames, h1, h2]
    refine ⟨createFile
        (createFile fs
          ((d ++ "/" ++ pad4 (wrap64 (n + 1)) ++ "_" ++ normLabel lbl) ++ ".up.sql"))
        ((d ++ "/" ++ pad4 (wrap64 (n + 1)) ++ "_" ++ normLabel lbl) ++ ".down.sql"),
      ?_, ?_, ?_⟩
    · simp only [doNew, hnames]
    · rw [readFile_createFile_ne _ _ _ (upName_ne_downName _)]
      exact readFile_createFile_self _ _
    · exact readFile_createFile_self _ _
  · intro hne
    obtain ⟨hlo, hhi⟩ := atoi_range h2
    exact wrap64_eq_self (by omega) (by omega)

/-- C8 witness: scaffolding in an empty directory with label
`"create users"`. -/
theorem c8_new_scaffolds_witness :
    doNew ([] : FS) "migrations" "create users"
      = some [("migrations/0001_create_users.up.sql", ""),
              ("migrations/0001_create_users.down.sql", "")] :=
  (c8_new_scaffolds [] "migrations" "create users" "0000" "unnamed.up.sql" 0
    (by decide) (by decide)).2.2

/-- A directory whose entries are not uniformly zero-padded: the
lexicographically last entry is `002_b.up.sql`, although the `0003_x` pair
(scaffolded earlier, its up-script since authored) also exists. -/
def fsClash : FS :=
  [("migrations/002_b.up.sql", "q"), ("migrations/0003_x.up.sql", "abc"),
   ("migrations/0003_x.down.sql", "d")]

/-- C9 counterexample: running `new x` on `fsClash` recomputes serial
`0003` from the last entry `002_b.up.sql`, and `os.Create` truncates the
pre-existing authored migration file `migrations/0003_x.up.sql` from
`"abc"` to empty — the system does mutate a migration file after its
creation. -/
theorem c9_counterexample :
    readFile fsClash "migrations/0003_x.up.sql" = some "abc"
    ∧ doNew fsClash "migrations" "x"
        = some [("migrations/002_b.up.sql", "q"),
                ("migrations/0003_x.up.sql", ""),
                ("migrations/0003_x.down.sql", "")]
    ∧ readFile [("migrations/002_b.up.sql", "q"),
                ("migrations/0003_x.up.sql", ""),
                ("migrations/0003_x.down.sql", "")] "migrations/0003_x.up.sql"
        = some "" := by
  refine ⟨by decide, by decide, by decide⟩

/-- C9 (amended): `up`, `down` and `status` never touch the filesystem, and
`new` leaves the content of every pre-existing file unchanged except a file
whose path equals one of the two filenames it computes (such a file is
truncated to empty by `os.Create`); with uniformly zero-padded serials the
computed filenames exceed every existing entry and no such collision
occurs. -/
theorem c9_new_frame (fs : FS) (d lbl : String) (fs' : FS) (u v p c : String)
    (h : doNew fs d lbl = some fs')
    (hn : newFileNames fs d lbl = some (u, v))
    (hp : readFile fs p = some c) (hu : p ≠ u) (hv : p ≠ v) :
    readFile fs' p = some c := by
  obtain ⟨u', v', hn', hshape⟩ := doNew_shape h
  rw [hn] at hn'
  injection hn' with huv
  injection huv with hu' hv'
  subst hu'
  subst hv'
  subst hshape
  rw [readFile_createFile_ne _ _ _ hv, readFile_createFile_ne _ _ _ hu]
  exact hp

/-- C9 witness: a well-formed directory — `new b` creates the `0002_b` pair
and the pre-existing `0001_a.up.sql` keeps its content. -/
theorem c9_new_frame_witness :
    readFile [("migrations/0001_a.up.sql", "X"), ("migrations/0002_b.up.sql", ""),
              ("migrations/0002_b.down.sql", "")] "migrations/0001_a.up.sql"
      = some "X" :=
  c9_new_frame [("migrations/0001_a.up.sql", "X")] "migrations" "b"
    [("migrations/0001_a.up.sql", "X"), ("migrations/0002_b.up.sql", ""),
     ("migrations/0002_b.down.sql", "")]
    "migrations/0002_b.up.sql" "migrations/0002_b.down.sql"
    "migrations/0001_a.up.sql" "X"
    (by decide) (by decide) (by decide) (by decide) (by decide)

/-- C10: for every `--sourcedir` value `d ≠ "migrations"`, `up` lists its
candidate ids from the fixed directory `"migrations"` while reading each
selected script from `<sourcedir>/<id>.up.sql`: on a filesystem whose only
script file is `migrations/0001_x.up.sql`, the candidate list is
`["0001_x"]` for any `d`, yet the run fails because `d/0001_x.up.sql` does
not exist; adding `src/0001_x.up.sql` and running with sourcedir `"src"`
succeeds and applies `0001_x`. -/
theorem c10_sourcedir_split (d : String) (hd : d ≠ "migrations") (now : Nat) :
    listDirMigrations fsTen = ["0001_x"]
    ∧ doUp exGood fsTen d (Db.mk [] ()) now = (Db.mk [] (), [], false)
    ∧ doUp exGood (fsTen ++ [("src/0001_x.up.sql", "CREATE")]) "src"
        (Db.mk [] ()) now
        = (Db.mk [Migration.mk "0001_x" now] (), ["0001_x"], true) := by
  refine ⟨by decide, ?_, rfl⟩
  have hpath : (d ++ "/" ++ "0001_x" ++ ".up.sql") ≠ "migrations/0001_x.up.sql" := by
    intro heq
    apply hd
    have hlit : (("migrations" ++ "/" ++ "0001_x" ++ ".up.sql" : String))
        = "migrations/0001_x.up.sql" := by decide
    have h2 := heq.trans hlit.symm
    exact append_right_cancel_str _ _ _
      (append_right_cancel_str _ _ _ (append_right_cancel_str _ _ _ h2))
  have hbeq : (("migrations/0001_x.up.sql" : String)
      == d ++ "/" ++ "0001_x" ++ ".up.sql") = false :=
    beq_eq_false_iff_ne.mpr (Ne.symm hpath)
  have hrf : readFile fsTen (d ++ "/" ++ "0001_x" ++ ".up.sql") = none := by
    simp [readFile, fsTen, List.find?_cons, hbeq]
  have hlist : listDirMigrations fsTen = ["0001_x"] := by decide
  simp [doUp, hlist, upLoop, isMigrationApplied, runScript, hrf]

/-- C10 witness: the theorem at the concrete sourcedir `"src"`. -/
theorem c10_sourcedir_split_witness :
    listDirMigrations fsTen = ["0001_x"]
    ∧ doUp exGood fsTen "src" (Db.mk [] ()) 3 = (Db.mk [] (), [], false) :=
  ⟨(c10_sourcedir_split "src" (by decide) 3).1,
   (c10_sourcedir_split "src" (by decide) 3).2.1⟩

end Fly
